import Mathlib

/-!
Shallow embedding of the bumper-lib requirement-bumping tool: the requirement
data model, the `RequirementsManager` merge logic, the `Bump` record, the
`AbstractBumper` decision matrix (`_bump`) and per-file pass, and the
`BumperDriver` orchestration loop with its rollback handler.

External collaborators (the `pkg_resources` version order and containment
test, the PyPI package index, changelog retrieval and changelog parsing) are
modelled as explicit function parameters: the spec designates them interface
boundaries, and every claim below holds for all instantiations.

Python `None`-or-value fields become `Option`; Python truthiness of strings,
lists and options is modelled explicitly where the source relies on it.
-/

/-- A `pkg_resources.Requirement`: a package name plus an ordered list of
conjunctive `(operator, version)` specs (`specs` may be empty: "Any"). -/
structure Req where
  project_name : String
  specs : List (String × String)
deriving DecidableEq, Repr

/-- Python `str(requirement)`: the name followed by the comma-joined specs. -/
def reqStr (r : Req) : String :=
  r.project_name ++ String.intercalate "," (r.specs.map (fun s => s.1 ++ s.2))

/-- A `BumpRequirement`: a requirement plus the `required` flag and the bump
that originated it (`required_by`).  `Bump` equality is equality of string
forms, so `required_by` stores the requiring bump's string (`None` = `none`). -/
structure BReq where
  req : Req
  required : Bool
  required_by : Option String
deriving DecidableEq, Repr

/-- Python `str(bump_requirement)` delegates to the wrapped requirement. -/
def breqStr (b : BReq) : String := reqStr b.req

/-- Python truthiness of `req.specs and req.specs[0][0] == '=='`. -/
def isPinned (r : Req) : Bool :=
  match r.specs with
  | (op, _) :: _ => op == "=="
  | [] => false

/-- The version of the first spec (`specs[0][1]`); only used under a
pinnedness guard, so the empty case is unreachable in source paths. -/
def pinVer (r : Req) : String :=
  match r.specs with
  | (_, v) :: _ => v
  | [] => ""

/-- Mirror of `if existing_req.required_by and not req.required_by:
req.required_by = existing_req.required_by`: keep `a` when present,
else fall back to `b`. -/
def orElseRB (a b : Option String) : Option String :=
  match a with
  | some x => some x
  | none => b

/-- A `Bump`: one applied or proposed version change.  `new_version` models
the Python tuple: the 2-tuple `('==', v)` becomes `some ["==", v]`, the
1-tuple of a joined multi-spec string becomes `some [s]`, `None` is `none`. -/
structure Bmp where
  name : String
  new_version : Option (List String)
  changes : List String
  requirements : List BReq
deriving DecidableEq, Repr

/-- Python `str(bump)`: the bare name when `new_version` is falsy, else the
name followed by the joined tuple parts. -/
def bumpStr (b : Bmp) : String :=
  match b.new_version with
  | none => b.name
  | some [] => b.name
  | some l => b.name ++ String.join l

/-- `Bump.require` (cars.py 254-263): wrap each incoming requirement, force
`required = True` and `required_by = self` on it, and append it to
`self.requirements`.  The identity of `self` is recorded as its string form,
which is how `Bump.__eq__` compares bumps. -/
def bumpRequire (b : Bmp) (reqs : List BReq) : Bmp :=
  { b with requirements :=
      b.requirements ++
        reqs.map (fun r => { r with required := true, required_by := some (bumpStr b) }) }

/-- The context argument of `RequirementsManager.check`: a name string, a
requirement, a bump requirement, or a bump (cars.py 147-177). -/
inductive CheckCtx where
  | name (s : String)
  | preq (r : Req)
  | breq (r : BReq)
  | bump (b : Bmp)
deriving DecidableEq, Repr

/-- A `RequirementsManager`: name-keyed lists of bump requirements (the
`defaultdict(list)`), the `matched_name` flag and the `checked` ledger. -/
structure Mgr where
  entries : List (String × List BReq)
  matched_name : Bool
  checked : List (CheckCtx × Option String)
deriving DecidableEq, Repr

/-- A fresh `RequirementsManager()`. -/
def mgrEmpty : Mgr := ⟨[], false, []⟩

/-- Association-list lookup modelling `dict.get` / key membership. -/
def lookupD {α : Type} : List (String × α) → String → Option α
  | [], _ => none
  | (k, v) :: rest, key => if k = key then some v else lookupD rest key

/-- Association-list store modelling `d[k] = v` (replace or append). -/
def insertD {α : Type} : List (String × α) → String → α → List (String × α)
  | [], k, v => [(k, v)]
  | (k', v') :: rest, k, v => if k' = k then (k, v) :: rest else (k', v') :: insertD rest k v

/-- Association-list delete modelling `del d[k]`. -/
def eraseD {α : Type} : List (String × α) → String → List (String × α)
  | [], _ => []
  | (k', v') :: rest, k => if k' = k then rest else (k', v') :: eraseD rest k

/-- `RequirementsManager.add`'s scan of the existing list for one name
(cars.py 113-142), for one incoming requirement `req`.  An equal existing
entry stops the add; with two pins the higher pinned version's underlying
requirement survives (per the external order `vlt`); when either side is
unconstrained the constrained side's requirement survives; a fired rule ORs
`required` into the survivor, inherits `required_by` when the survivor lacks
one, removes the old entry and appends the survivor at the end; when no rule
fires for any existing entry the requirement is appended as a coexisting
constraint. -/
def addToList (vlt : String → String → Bool) (req : BReq) : List BReq → List BReq
  | [] => [req]
  | e :: rest =>
    if req = e then e :: rest
    else
      let bothPinned := isPinned req.req && isPinned e.req
      let req1 := if bothPinned && vlt (pinVer req.req) (pinVer e.req) then
          { req with req := e.req } else req
      let anyUnconstrained := !(!req1.req.specs.isEmpty && !e.req.specs.isEmpty)
      let req2 := if anyUnconstrained && !e.req.specs.isEmpty then
          { req1 with req := e.req } else req1
      let survivor : BReq :=
        { req2 with required := req2.required || e.required
                    required_by := orElseRB req2.required_by e.required_by }
      if bothPinned || anyUnconstrained then
        rest ++ [survivor]
      else
        e :: addToList vlt req rest

/-- `RequirementsManager.add` for one already-wrapped requirement (cars.py
103-142); `required = some b` models the explicit `required` argument
overriding the flag (lines 106-109; a plain `pkg_resources.Requirement`
input is wrapped into exactly this shape by line 107). -/
def mgrAdd (vlt : String → String → Bool) (m : Mgr) (breq : BReq) (required : Option Bool) :
    Mgr :=
  let req := match required with | some b => { breq with required := b } | none => breq
  let name := req.req.project_name
  match lookupD m.entries name with
  | some l => { m with entries := insertD m.entries name (addToList vlt req l) }
  | none => { m with entries := m.entries ++ [(name, [req])] }

/-- `RequirementsManager.add` over a list of requirements in order. -/
def mgrAddList (vlt : String → String → Bool) (m : Mgr) (reqs : List BReq)
    (required : Option Bool) : Mgr :=
  reqs.foldl (fun acc r => mgrAdd vlt acc r required) m

/-- Resolution of a `check` context to `(name, version, req_str)` (cars.py
155-177).  A pinned requirement or `==` bump yields its pinned version and no
`req_str`; otherwise the passed-in version survives and `req_str` is the
context's string form.  A bare string context without a version is parsed,
which for the in-scope callers is an unconstrained requirement of that name. -/
def ctxResolve : CheckCtx → Option String → String × Option String × Option String
  | .bump b, ver =>
    (b.name,
     match b.new_version with
     | some ("==" :: v :: _) => some v
     | _ => ver,
     match b.new_version with
     | some ("==" :: _ :: _) => none
     | _ => some (bumpStr b))
  | .preq r, ver =>
    (r.project_name,
     if isPinned r then some (pinVer r) else ver,
     if isPinned r then none else some (reqStr r))
  | .breq r, ver =>
    (r.req.project_name,
     if isPinned r.req then some (pinVer r.req) else ver,
     if isPinned r.req then none else some (breqStr r))
  | .name s, some v => (s, some v, none)
  | .name s, none => (s, none, some s)

/-- The flip pass of `check` (cars.py 182-185): turn `required` off on the
first still-required entry whose requirement contains the resolved (truthy)
version or whose string form equals `req_str`, reporting success. -/
def checkFlip (contains : String → Req → Bool) (version req_str : Option String) :
    List BReq → List BReq × Bool
  | [] => ([], false)
  | e :: rest =>
    if e.required &&
        ((match version with | some v => !v.isEmpty && contains v e.req | none => false) ||
          req_str == some (breqStr e)) then
      ({ e with required := false } :: rest, true)
    else
      let p := checkFlip contains version req_str rest
      (e :: p.1, p.2)

/-- `RequirementsManager.check` (cars.py 147-187): record the call in the
ledger, resolve the context, and if the name is managed set `matched_name`
and run the flip pass. -/
def mgrCheck (contains : String → Req → Bool) (m : Mgr) (ctx : CheckCtx) (ver : Option String) :
    Mgr × Bool :=
  let m1 : Mgr := { m with checked := m.checked ++ [(ctx, ver)] }
  let r := ctxResolve ctx ver
  match lookupD m1.entries r.1 with
  | some l =>
    let f := checkFlip contains r.2.1 r.2.2 l
    ({ m1 with matched_name := true, entries := insertD m1.entries r.1 f.1 }, f.2)
  | none => (m1, false)

/-- Python truthiness of `len(manager)`: the number of managed names. -/
def mgrIsEmpty (m : Mgr) : Bool := m.entries.isEmpty

/-- `RequirementsManager.required_requirements` (cars.py 199-207),
snapshotted as entry positions per name: the Python result holds live object
references, so later in-place `required` flips remain visible through it,
while membership is fixed at snapshot time. -/
def mgrRequiredIdx (m : Mgr) : List (String × List Nat) :=
  m.entries.filterMap (fun p =>
    let idxs := (List.range p.2.length).filter (fun i => ((p.2.get? i).map (·.required)).getD false)
    if idxs.isEmpty then none else some (p.1, idxs))

/-- The `BumpAccident` errors raised inside `AbstractBumper`, structured by
the data each message interpolates. -/
inductive BumpErr where
  | emptyReqs
  | unsatisfiable (reqs : List String) (latestPublished : List String)
  | notPublished (name : String)
  | conflict (name : String) (reqs : List String)
  | noPublishedVersion (name : String)
deriving DecidableEq, Repr

/-- Parameters of an `AbstractBumper` instance together with its external
collaborators: `should_pin` and `detail` configure the bumper;
`all_package_versions` (descending, the index's own order) and
`latest_package_version` are the package index; `contains` is
`version in requirement` and `vlt` the strict order of
`pkg_resources.parse_version`; `pkg_changes` is the abstract method
`_package_changes` (PyPI-backed in `RequirementsBumper`).
`requirements_for_changes` (cars.py 282-319, regular-expression parsing of
changelog lines) is the one piece of repository code kept opaque here: it is
used only inside detail mode and no claim depends on its internals. -/
structure BumperParams where
  should_pin : Bool
  detail : Bool
  all_package_versions : String → List String
  latest_package_version : String → Option String
  contains : String → Req → Bool
  vlt : String → String → Bool
  pkg_changes : String → String → String → List String
  requirements_for_changes : List String → List Req

/-- The search loop of `latest_version_for_requirements` (cars.py 398-400):
first listed version satisfying the predicate. -/
def lvfrFind (sat : String → Bool) : List String → Option String
  | [] => none
  | v :: rest => if sat v then some v else lvfrFind sat rest

/-- `AbstractBumper.latest_version_for_requirements` (cars.py 395-406): walk
all published versions of `reqs[0]`'s package in the index's descending
order and return the first contained in every requirement; otherwise fail
listing the top 10 published versions, or fail with the distinct
"not published" error when there are none.  The empty-list case models the
`IndexError` of `reqs[0]`. -/
def latest_version_for_requirements (p : BumperParams) (reqs : List Req) :
    Except BumpErr String :=
  match reqs with
  | [] => .error .emptyReqs
  | r0 :: _ =>
    let all := p.all_package_versions r0.project_name
    match lvfrFind (fun v => reqs.all (fun r => p.contains v r)) all with
    | some v => .ok v
    | none =>
      if all.isEmpty then .error (.notPublished r0.project_name)
      else .error (.unsatisfiable (reqs.map reqStr) (all.take 10))

/-- `AbstractBumper.package_changes` (cars.py 377-393): on a downgrade,
swap the endpoints and prefix each change line with a minus sign. -/
def package_changes (p : BumperParams) (name cur nv : String) : List String :=
  if p.vlt nv cur then (p.pkg_changes name nv cur).map (fun c => "- " ++ c)
  else p.pkg_changes name cur nv

/-- Intermediate outcome of the `_bump` decision stages: an executed
`return None`, or the `(bump, current_version, new_version)` sequel state. -/
inductive BumpStage where
  | early
  | go (bump : Option Bmp) (cur : Option String) (nv : Option String)
deriving DecidableEq, Repr

/-- The name `_bump` works on (cars.py 453): the existing requirement's name
or the first bump requirement's.  Both absent is unreachable under the
method's guard (the source would raise `IndexError`). -/
def bumpName (existing_req : Option Req) (bump_reqs : List BReq) : String :=
  match existing_req, bump_reqs with
  | some r, _ => r.project_name
  | none, b :: _ => b.req.project_name
  | none, [] => ""

/-- The pinned current version read from the existing requirement (cars.py
465, 482): `existing_req and existing_req.specs and specs[0][0] == '==' and
specs[0][1]`, falsy results collapsing to `none`. -/
def pinnedCurrent (existing_req : Option Req) : Option String :=
  match existing_req with
  | some r => if isPinned r then some (pinVer r) else none
  | none => none

/-- First stage of `_bump` (cars.py 459-493), the `if bump_reqs:` block:
BLR (pin target with many bump requirements or one non-pin), the ambiguity
error, and BR (bump to the single requested requirement). -/
def bumpReqsStage (p : BumperParams) (existing_req : Option Req) (bump_reqs : List BReq) :
    Except BumpErr BumpStage :=
  match bump_reqs with
  | [] => .ok (.go none none none)
  | b0 :: rest =>
    if p.should_pin &&
        (!rest.isEmpty ||
          (!b0.req.specs.isEmpty && !(isPinned b0.req))) then
      match latest_version_for_requirements p (bump_reqs.map (·.req)) with
      | .error e => .error e
      | .ok nv =>
        let cur := pinnedCurrent existing_req
        if cur = some nv then .ok .early
        else .ok (.go (some ⟨bumpName existing_req bump_reqs, some ["==", nv], [], []⟩) cur (some nv))
    else if !rest.isEmpty then
      .error (.conflict (bumpName existing_req bump_reqs) (bump_reqs.map breqStr))
    else if !b0.req.specs.isEmpty ||
        !(existing_req.isSome || p.should_pin || !b0.req.specs.isEmpty) then
      match latest_version_for_requirements p (bump_reqs.map (·.req)) with
      | .error e => .error e
      | .ok latest =>
        let nv := if isPinned b0.req && !(pinVer b0.req).isEmpty then pinVer b0.req else latest
        let cur := pinnedCurrent existing_req
        if cur = some nv then .ok .early
        else
          let version : Option (List String) :=
            if b0.req.specs.length > 1 then
              some [String.intercalate "," (b0.req.specs.map (fun s => s.1 ++ s.2))]
            else
              match b0.req.specs with
              | s :: _ => some [s.1, s.2]
              | [] => none
          .ok (.go (some ⟨bumpName existing_req bump_reqs, version, [], []⟩) cur (some nv))
    else .ok (.go none none none)

/-- Second stage of `_bump` (cars.py 496-508), BL "pin to latest": fires
when no bump was decided yet and the existing requirement is pinned, or the
target pins and there is no existing requirement.  The equality test runs
before the published-version check, so an absent latest version matching an
absent current version is a quiet no-bump. -/
def pinLatestStage (p : BumperParams) (existing_req : Option Req) (s : BumpStage) :
    Except BumpErr BumpStage :=
  match s with
  | .early => .ok .early
  | .go bump cur0 nv0 =>
    if bump.isNone &&
        ((match existing_req with | some r => isPinned r | none => false) ||
          (p.should_pin && existing_req.isNone)) then
      let name := bumpName existing_req []
      let cur : Option String :=
        match existing_req with
        | some r => some (pinVer r)
        | none => none
      match p.latest_package_version name with
      | some v =>
        if cur = some v then .ok .early
        else if v.isEmpty then .error (.noPublishedVersion name)
        else .ok (.go (some ⟨name, some ["==", v], [], []⟩) cur (some v))
      | none =>
        if cur = none then .ok .early
        else .error (.noPublishedVersion name)
    else .ok (.go bump cur0 nv0)

/-- Third stage of `_bump` (cars.py 510-514): in detail mode with both
versions known, fetch the changelog and extend the bump's changes; on a pin
target additionally attach the requirements parsed out of those changes via
`Bump.require`. -/
def detailStage (p : BumperParams) (s : BumpStage) : Option Bmp :=
  match s with
  | .early => none
  | .go bump cur nv =>
    match bump, cur, nv with
    | some b, some c, some n =>
      if !c.isEmpty && !n.isEmpty && p.detail then
        let changes := package_changes p b.name c n
        let b1 : Bmp := { b with changes := b.changes ++ changes }
        some (if p.should_pin then
            bumpRequire b1 ((p.requirements_for_changes changes).map (fun r => ⟨r, false, none⟩))
          else b1)
      else some b
    | _, _, _ => bump

/-- Python `str` of the optional candidate bump (`str(None)` is `"None"`). -/
def bumpStrOpt : Option Bmp → String
  | some b => bumpStr b
  | none => "None"

/-- Python `str` of the optional existing requirement. -/
def optReqStr : Option Req → String
  | some r => reqStr r
  | none => "None"

/-- `AbstractBumper._bump` (cars.py 452-522): the guard, the three decision
stages, and the final no-op filter
`return bump if str(bump) != str(existing_req) else None`. -/
def underscoreBump (p : BumperParams) (existing_req : Option Req) (bump_reqs : List BReq) :
    Except BumpErr (Option Bmp) :=
  if existing_req.isSome || (!bump_reqs.isEmpty && bump_reqs.any (·.required)) then
    match bumpReqsStage p existing_req bump_reqs with
    | .error e => .error e
    | .ok s1 =>
      match pinLatestStage p existing_req s1 with
      | .error e => .error e
      | .ok s2 =>
        let bump := detailStage p s2
        if bumpStrOpt bump ≠ optReqStr existing_req then .ok bump else .ok none
  else .ok none

/-- The first loop of `AbstractBumper.bump` (cars.py 535-552) over the
sorted existing requirements, generic in the `_bump` implementation (which
subclasses may override) and its error type: skip names absent from a
non-empty manager, check the requirement off, run `_bump`, record and check a
resulting bump; on an exception, re-raise when the manager is empty or when
the name's entries are present and all user-originated, else log and
continue. -/
def bumpFirstLoop {ε : Type} (contains : String → Req → Bool)
    (bumpFn : Option Req → List BReq → Except ε (Option Bmp))
    (mgr : Mgr) (bumps : List (String × Bmp)) :
    List Req → Except ε (Mgr × List (String × Bmp))
  | [] => .ok (mgr, bumps)
  | r :: rest =>
    if !(mgrIsEmpty mgr) && (lookupD mgr.entries r.project_name).isNone then
      bumpFirstLoop contains bumpFn mgr bumps rest
    else
      let mgr1 := (mgrCheck contains mgr (.preq r) none).1
      match bumpFn (some r) ((lookupD mgr1.entries r.project_name).getD []) with
      | .ok ob =>
        match ob with
        | some b =>
          bumpFirstLoop contains bumpFn (mgrCheck contains mgr1 (.bump b) none).1
            (insertD bumps b.name b) rest
        | none => bumpFirstLoop contains bumpFn mgr1 bumps rest
      | .error e =>
        if mgrIsEmpty mgr1 ||
            (match lookupD mgr1.entries r.project_name with
             | some (x :: xs) => (x :: xs).all (·.required_by.isNone)
             | _ => false) then
          .error e
        else bumpFirstLoop contains bumpFn mgr1 bumps rest

/-- The second loop of `AbstractBumper.bump` (cars.py 554-568) over the
snapshot of still-required requirements: for addable names not already
bumped, run `_bump(None, reqs)`; re-raise only when every triggering
requirement is user-originated.  The snapshot is positional so in-place
`required` flips made by `check` stay visible to later iterations. -/
def bumpSecondLoop {ε : Type} (contains : String → Req → Bool)
    (bumpFn : Option Req → List BReq → Except ε (Option Bmp))
    (should_add : String → Bool) (mgr : Mgr) (bumps : List (String × Bmp)) :
    List (String × List Nat) → Except ε (Mgr × List (String × Bmp))
  | [] => .ok (mgr, bumps)
  | (name, idxs) :: rest =>
    if (lookupD bumps name).isNone && should_add name then
      let reqs := idxs.filterMap (fun i => ((lookupD mgr.entries name).getD []).get? i)
      match bumpFn none reqs with
      | .ok ob =>
        match ob with
        | some b =>
          bumpSecondLoop contains bumpFn should_add (mgrCheck contains mgr (.bump b) none).1
            (insertD bumps b.name b) rest
        | none => bumpSecondLoop contains bumpFn should_add mgr bumps rest
      | .error e =>
        if reqs.all (·.required_by.isNone) then .error e
        else bumpSecondLoop contains bumpFn should_add mgr bumps rest
    else bumpSecondLoop contains bumpFn should_add mgr bumps rest

/-- `AbstractBumper.bump` (cars.py 524-572): the existing-requirement pass
over the name-sorted requirements, then the required-requirement pass. -/
def bumperBumpPass {ε : Type} (contains : String → Req → Bool)
    (bumpFn : Option Req → List BReq → Except ε (Option Bmp))
    (should_add : String → Bool) (mgr : Mgr) (existing : List Req) :
    Except ε (Mgr × List (String × Bmp)) :=
  match bumpFirstLoop contains bumpFn mgr []
      (existing.mergeSort (fun a b => decide (a.project_name ≤ b.project_name))) with
  | .error e => .error e
  | .ok s =>
    bumpSecondLoop contains bumpFn should_add s.1 s.2 (mgrRequiredIdx s.1)

/-- The file system seen by the driver: target paths mapped to contents;
`os.path.exists` is key presence. -/
abbrev FS : Type := List (String × String)

/-- Read a target file (`open(target).read()`). -/
def fsRead (fs : FS) (t : String) : Option String := lookupD fs t

/-- Write a target file (`open(target, 'w').write(content)`). -/
def fsWrite (fs : FS) (t : String) (c : String) : FS := insertD fs t c

/-- Python truthiness of the `_original_target_content` attribute: `None`
and the empty string are falsy. -/
def truthyS : Option String → Bool
  | none => false
  | some s => !s.isEmpty

/-- The observable behaviour of one `bumper.bump(...)` call: whether it
read its target file (capturing the original-content snapshot), and either
the `(found_bump_requirements, bumps)` result or a raised exception. -/
structure RoundB where
  reads : Bool
  result : Except String (Bool × List Bmp)

/-- A bumper model (an element of `bumper_models`, which `BumperDriver`
takes as a parameter): its `likes` predicate, its `bump` behaviour as a
function of the target, the number of previous calls on that target and the
requirement dict passed in, and its `bump_message`. -/
structure BumperModel where
  likes : String → Bool
  behav : String → Nat → List (String × BReq) → RoundB
  msg : Bool → String

/-- One instantiated bumper: its model, its target, the lazily captured
`_original_target_content`, its accumulated `self.bumps` (a set keyed by
bump string), and how many times `bump` was called on it. -/
structure BumperSt where
  model : BumperModel
  target : String
  orig : Option String
  bumps : List Bmp
  calls : Nat

/-- The capture step of `AbstractBumper.original_target_content` (cars.py
324-330): with a falsy snapshot, (re)read the target file and store it. -/
def captureOrig (fs : FS) (b : BumperSt) : Option String :=
  if truthyS b.orig then b.orig else some ((fsRead fs b.target).getD "")

/-- `AbstractBumper.reverse` (cars.py 574-578): write the snapshot back to
the target only when the snapshot is truthy. -/
def bumperReverse (b : BumperSt) (fs : FS) : FS :=
  if truthyS b.orig then fsWrite fs b.target (b.orig.getD "") else fs

/-- Set-insert into `self.bumps` (`Bump` hashes and compares by string). -/
def insertBump (l : List Bmp) (b : Bmp) : List Bmp :=
  if l.any (fun x => bumpStr x == bumpStr b) then l else l ++ [b]

/-- Errors observable from `BumperDriver.bump`, by raise site. -/
inductive DrvErr where
  | noneFound (targets : List String)
  | noBumpers (found : List String)
  | requiredNotMet (req : String)
  | filterNotMatched (found : List String)
  | bumperRaise (e : String)
  | attrSatisfies
deriving DecidableEq, Repr

/-- The mutable driver state inside the `try` block of `BumperDriver.bump`:
instantiated bumpers, accumulated bumps, the global `bump_requirements` dict
and the `filter_matched` flag. -/
structure DrvSt where
  bumpers : List BumperSt
  bumps : List Bmp
  breqs : List (String × BReq)
  filter_matched : Bool

/-- Per discovered requirement (bumper/__init__.py 114-120): drop a superseded entry
from the global dict and record the new one in the round's dict. -/
def procNewReq (global newT : List (String × BReq)) (nr : BReq) :
    List (String × BReq) × List (String × BReq) :=
  let name := nr.req.project_name
  let global1 :=
    match lookupD global name with
    | some old =>
      if breqStr old == breqStr nr ||
          (!nr.req.specs.isEmpty && old.req.specs.isEmpty) ||
          (isPinned nr.req && (old.req.specs.isEmpty || isPinned old.req)) then
        eraseD global name
      else global
    | none => global
  (global1, insertD newT name nr)

/-- One `bumper.bump(...)` call of a round (bumper/__init__.py 108-120) at driver
level: capture-on-read, behaviour, `self.bumps` accumulation.  Bumper-state
mutations persist even when the call raises. -/
def bumperRound (fs : FS) (tbr : List (String × BReq)) (b : BumperSt) :
    BumperSt × Except String (Bool × List Bmp) :=
  let rb := b.model.behav b.target b.calls tbr
  let orig1 := if rb.reads then captureOrig fs b else b.orig
  match rb.result with
  | .error e => ({ b with orig := orig1, calls := b.calls + 1 }, .error e)
  | .ok (found, bl) =>
    ({ b with orig := orig1, calls := b.calls + 1, bumps := bl.foldl insertBump b.bumps },
     .ok (found, bl))

/-- The `for bumper in target_bumpers:` body of one loop round (init.py
108-120), over the indices of this target's bumpers in the driver state;
returns the updated state, the round's new-requirement dict, and the raised
exception if any.  Every bumper call of a round consults the round's input
dict `tbr` (in the source, round one aliases the global dict, so a later
bumper of the same round could observe that round's deletions; the
behaviour oracle here is consulted with the round input). -/
def roundLoop (fs : FS) (tbr : List (String × BReq)) (st : DrvSt)
    (newT : List (String × BReq)) :
    List Nat → DrvSt × List (String × BReq) × Option String
  | [] => (st, newT, none)
  | i :: rest =>
    match st.bumpers.get? i with
    | none => (st, newT, none)
    | some b =>
      let pr := bumperRound fs tbr b
      let st1 := { st with bumpers := st.bumpers.set i pr.1 }
      match pr.2 with
      | .error e => (st1, newT, some e)
      | .ok (found, bl) =>
        let st2 := { st1 with bumps := st1.bumps ++ bl
                              filter_matched := st1.filter_matched || found || !bl.isEmpty }
        let pd := (bl.map (·.requirements)).flatten.foldl
            (fun acc nr => procNewReq acc.1 acc.2 nr) (st2.breqs, newT)
        roundLoop fs tbr { st2 with breqs := pd.1 } pd.2 rest

/-- Result of a per-target `while True` loop: a raised exception with the
state at that point, or normal exit state. -/
inductive LoopRes where
  | err (e : String) (st : DrvSt)
  | done (st : DrvSt)

/-- The instantiation step at the top of each loop round (bumper/__init__.py 97-104):
when this target has no bumpers yet, instantiate one per model that likes
the target and extend the driver's bumper list. -/
def instantiateBumpers (models : List BumperModel) (target : String) (tbIdx : List Nat)
    (st : DrvSt) : List Nat × DrvSt :=
  if tbIdx.isEmpty then
    let liked := models.filter (fun m => m.likes target)
    (List.range' st.bumpers.length liked.length,
     { st with bumpers := st.bumpers ++ liked.map (fun m => ⟨m, target, none, [], 0⟩) })
  else (tbIdx, st)

/-- The per-target reconciliation loop of `BumperDriver.bump` (init.py
96-127), fuelled: a round instantiates the target's bumpers when none exist
(re-trying forever when no model likes the target), runs every bumper, folds
newly discovered requirements into the global dict, and continues until a
round discovers none; `none` means the fuel ran out before the loop exited. -/
def targetLoop (fs : FS) (models : List BumperModel) (target : String) :
    List Nat → List (String × BReq) → DrvSt → Nat → Option LoopRes
  | _, _, _, 0 => none
  | tbIdx, tbr, st, fuel + 1 =>
    let inst := instantiateBumpers models target tbIdx st
    if inst.1.isEmpty then targetLoop fs models target [] tbr inst.2 fuel
    else
      let r := roundLoop fs tbr inst.2 [] inst.1
      match r.2.2 with
      | some e => some (.err e r.1)
      | none =>
        if r.2.1.isEmpty then some (.done r.1)
        else
          targetLoop fs models target inst.1 r.2.1
            { r.1 with breqs := r.2.1.foldl (fun d p => insertD d p.1 p.2) r.1.breqs } fuel

/-- The `for target in found_targets:` drive (bumper/__init__.py 90-127). -/
def targetsLoop (fs : FS) (models : List BumperModel) (fuel : Nat) :
    List String → DrvSt → Option LoopRes
  | [], st => some (.done st)
  | t :: rest, st =>
    match targetLoop fs models t [] st.breqs st fuel with
    | none => none
    | some (.err e st1) => some (.err e st1)
    | some (.done st1) => targetsLoop fs models fuel rest st1

/-- The required-bumps validation (bumper/__init__.py 134-159): a required requirement
whose name was bumped reaches `bump.satisfies(req)` — an attribute `Bump`
does not define in this snapshot, so an `AttributeError` is raised there; an
unmet one raises a `BumpAccident` unless in force mode. -/
def requiredCheck (bumpedNames : List String) (full_throttle : Bool) :
    List BReq → Option DrvErr
  | [] => none
  | req :: rest =>
    if bumpedNames.contains req.req.project_name then some .attrSatisfies
    else if !full_throttle then some (.requiredNotMet (breqStr req))
    else requiredCheck bumpedNames full_throttle rest

/-- The `except` handler of `BumperDriver.bump` (bumper/__init__.py 190-193): outside a
dry run, when any bumps were made, reverse every instantiated bumper before
re-raising. -/
def driverHandler (test_drive : Bool) (fs : FS) (st : DrvSt) (e : DrvErr) :
    Except DrvErr (List (String × String)) × FS × List BumperSt :=
  let fs1 := if !test_drive && !st.bumps.isEmpty then
      st.bumpers.foldl (fun f b => bumperReverse b f) fs
    else fs
  (.error e, fs1, st.bumpers)

/-- `BumperDriver.bump` (bumper/__init__.py 64-193) over abstract bumper models: find
existing targets, seed the requirement dict from the filter, run the
per-target loops, validate required bumps and the filter match, and either
produce the per-target messages or roll back and re-raise.  The result is
`none` when a per-target loop exhausts its fuel. -/
def driverRun (models : List BumperModel) (full_throttle test_drive : Bool) (fs : FS)
    (targets : List String) (filterReqs : List Req) (required : Bool) (fuel : Nat) :
    Option (Except DrvErr (List (String × String)) × FS × List BumperSt) :=
  let found := targets.filter (fun t => (fsRead fs t).isSome)
  if found.isEmpty then some (.error (.noneFound targets), fs, [])
  else
    let breqs0 := filterReqs.foldl (fun d r => insertD d r.project_name ⟨r, required, none⟩) []
    let st0 : DrvSt := ⟨[], [], breqs0, breqs0.isEmpty⟩
    match targetsLoop fs models fuel found st0 with
    | none => none
    | some (.err e st) => some (driverHandler test_drive fs st (.bumperRaise e))
    | some (.done st) =>
      if st.bumpers.isEmpty then some (driverHandler test_drive fs st (.noBumpers found))
      else
        match requiredCheck (st.bumps.map (·.name)) full_throttle
            ((st.breqs.map (·.2)).filter (·.required)) with
        | some e => some (driverHandler test_drive fs st e)
        | none =>
          if !st.filter_matched then
            some (driverHandler test_drive fs st (.filterNotMatched found))
          else
            let messages := if st.bumps.isEmpty then []
              else st.bumpers.filterMap (fun b =>
                if !b.bumps.isEmpty then some (b.target, b.model.msg true) else none)
            some (.ok messages, fs, st.bumpers)

/-! ### Theorems -/

/-- C3.  Adding two pinned requirements for the same name in either order
leaves a single retained entry whose requirement carries the higher of the
two pinned versions (w.r.t. the `parse_version` order `vlt`), whose
`required` flag is the OR of both, and whose `required_by` is the newer
entry's when present, else inherited from the replaced entry. -/
theorem c3_pinned_merge (vlt : String → String → Bool) (n v1 v2 : String) (q1 q2 : Bool)
    (rb1 rb2 : Option String) (h12 : vlt v1 v2 = true) (h21 : vlt v2 v1 = false) :
    (mgrAdd vlt (mgrAdd vlt mgrEmpty ⟨⟨n, [("==", v1)]⟩, q1, rb1⟩ none)
        ⟨⟨n, [("==", v2)]⟩, q2, rb2⟩ none).entries
      = [(n, [⟨⟨n, [("==", v2)]⟩, q2 || q1, orElseRB rb2 rb1⟩])] ∧
    (mgrAdd vlt (mgrAdd vlt mgrEmpty ⟨⟨n, [("==", v2)]⟩, q2, rb2⟩ none)
        ⟨⟨n, [("==", v1)]⟩, q1, rb1⟩ none).entries
      = [(n, [⟨⟨n, [("==", v2)]⟩, q1 || q2, orElseRB rb1 rb2⟩])] := by
  have hne : v1 ≠ v2 := by
    intro h
    subst h
    rw [h12] at h21
    exact Bool.noConfusion h21
  constructor
  · simp [mgrAdd, mgrEmpty, lookupD, insertD, addToList, isPinned, pinVer, hne.symm, h21]
  · simp [mgrAdd, mgrEmpty, lookupD, insertD, addToList, isPinned, pinVer, hne, h12]

/-- C3 witness: a concrete instance of the pinned-merge theorem. -/
theorem c3_pinned_merge_witness :
    (mgrAdd (fun a b => a == "1.0" && b == "2.0")
        (mgrAdd (fun a b => a == "1.0" && b == "2.0") mgrEmpty
          ⟨⟨"n", [("==", "1.0")]⟩, false, some "w"⟩ none)
        ⟨⟨"n", [("==", "2.0")]⟩, true, none⟩ none).entries
      = [("n", [⟨⟨"n", [("==", "2.0")]⟩, true || false, orElseRB none (some "w")⟩])] ∧
    (mgrAdd (fun a b => a == "1.0" && b == "2.0")
        (mgrAdd (fun a b => a == "1.0" && b == "2.0") mgrEmpty
          ⟨⟨"n", [("==", "2.0")]⟩, true, none⟩ none)
        ⟨⟨"n", [("==", "1.0")]⟩, false, some "w"⟩ none).entries
      = [("n", [⟨⟨"n", [("==", "2.0")]⟩, false || true, orElseRB (some "w") none⟩])] :=
  c3_pinned_merge (fun a b => a == "1.0" && b == "2.0") "n" "1.0" "2.0" false true
    (some "w") none rfl rfl

/-- C4.  When exactly one of two requirements added for the same name is
unconstrained (no specs), the constrained side's requirement is the one
retained regardless of add order, with `required` ORed and `required_by`
inherited from the replaced entry when the surviving one lacks one. -/
theorem c4_unconstrained_merge (vlt : String → String → Bool) (n : String)
    (s0 : String × String) (srest : List (String × String)) (qc qu : Bool)
    (rbc rbu : Option String) :
    (mgrAdd vlt (mgrAdd vlt mgrEmpty ⟨⟨n, s0 :: srest⟩, qc, rbc⟩ none)
        ⟨⟨n, []⟩, qu, rbu⟩ none).entries
      = [(n, [⟨⟨n, s0 :: srest⟩, qu || qc, orElseRB rbu rbc⟩])] ∧
    (mgrAdd vlt (mgrAdd vlt mgrEmpty ⟨⟨n, []⟩, qu, rbu⟩ none)
        ⟨⟨n, s0 :: srest⟩, qc, rbc⟩ none).entries
      = [(n, [⟨⟨n, s0 :: srest⟩, qc || qu, orElseRB rbc rbu⟩])] := by
  constructor
  · simp [mgrAdd, mgrEmpty, lookupD, insertD, addToList, isPinned, pinVer]
  · simp [mgrAdd, mgrEmpty, lookupD, insertD, addToList, isPinned, pinVer]

/-- C9.  A bumper whose target was never read (no captured snapshot) does
not write on `reverse()`: the file system is unchanged. -/
theorem c9_reverse_never_read (b : BumperSt) (fs : FS) (h : b.orig = none) :
    bumperReverse b fs = fs := by
  simp [bumperReverse, h, truthyS]

/-- A trivial bumper model used to build concrete bumper states. -/
def modelT : BumperModel :=
  ⟨fun _ => true, fun _ _ _ => ⟨false, .ok (false, [])⟩, fun _ => ""⟩

/-- C9 witness: reversing a never-read bumper leaves a concrete file system
unchanged. -/
theorem c9_reverse_never_read_witness :
    bumperReverse ⟨modelT, "t", none, [], 0⟩ [("t", "abc")] = [("t", "abc")] :=
  c9_reverse_never_read ⟨modelT, "t", none, [], 0⟩ [("t", "abc")] rfl

/-- C10.  `Bump.require` appends exactly the input requirements with
`required` forced to true and `required_by` forced to the bump itself,
overwriting whatever flags they carried; consequently, when the bump's prior
requirements already carry those flags (as every source path ensures), all
of its requirements do immediately after `require` returns. -/
theorem c10_require_forces (b : Bmp) (rs : List BReq)
    (h : ∀ r ∈ b.requirements, r.required = true ∧ r.required_by = some (bumpStr b)) :
    (bumpRequire b rs).requirements
      = b.requirements
        ++ rs.map (fun r => { r with required := true, required_by := some (bumpStr b) }) ∧
    ∀ r ∈ (bumpRequire b rs).requirements,
      r.required = true ∧ r.required_by = some (bumpStr (bumpRequire b rs)) := by
  have hstr : bumpStr (bumpRequire b rs) = bumpStr b := rfl
  refine ⟨rfl, ?_⟩
  intro r hr
  rw [hstr]
  rcases List.mem_append.mp hr with h1 | h2
  · exact h r h1
  · obtain ⟨x, _, rfl⟩ := List.mem_map.mp h2
    exact ⟨rfl, rfl⟩

/-- C10 witness: a concrete `require` call forcing the flags on an attached
requirement that carried neither. -/
theorem c10_require_forces_witness :
    (bumpRequire ⟨"x", none, [], []⟩ [⟨⟨"y", []⟩, false, none⟩]).requirements
      = ([] : List BReq)
        ++ ([⟨⟨"y", []⟩, false, none⟩] : List BReq).map
          (fun r => { r with required := true
                             required_by := some (bumpStr ⟨"x", none, [], []⟩) }) ∧
    ∀ r ∈ (bumpRequire ⟨"x", none, [], []⟩ [⟨⟨"y", []⟩, false, none⟩]).requirements,
      r.required = true ∧
        r.required_by = some (bumpStr (bumpRequire ⟨"x", none, [], []⟩ [⟨⟨"y", []⟩, false, none⟩])) :=
  c10_require_forces ⟨"x", none, [], []⟩ [⟨⟨"y", []⟩, false, none⟩] (by simp)

/-- Helper: the version-search loop returns `some v` exactly when `v` is the
first listed version satisfying the predicate. -/
theorem lvfrFind_some_iff (sat : String → Bool) (l : List String) (v : String) :
    lvfrFind sat l = some v ↔
      ∃ i : Nat, l[i]? = some v ∧ sat v = true ∧
        ∀ j : Nat, j < i → ∀ w, l[j]? = some w → sat w = false := by
  induction l with
  | nil => simp [lvfrFind]
  | cons a tl ih =>
    cases hsa : sat a with
    | true =>
      have hstep : lvfrFind sat (a :: tl) = some a := by simp [lvfrFind, hsa]
      rw [hstep]
      constructor
      · intro h
        obtain rfl : a = v := Option.some.inj h
        exact ⟨0, by simp, hsa, by omega⟩
      · rintro ⟨i, hget, hsv, hmin⟩
        cases i with
        | zero =>
          simp only [List.getElem?_cons_zero] at hget
          exact congrArg some (Option.some.inj hget)
        | succ k =>
          have h0 := hmin 0 (Nat.succ_pos k) a (by simp)
          rw [h0] at hsa
          exact Bool.noConfusion hsa
    | false =>
      have hstep : lvfrFind sat (a :: tl) = lvfrFind sat tl := by simp [lvfrFind, hsa]
      rw [hstep, ih]
      constructor
      · rintro ⟨i, hget, hsv, hmin⟩
        refine ⟨i + 1, by simpa using hget, hsv, ?_⟩
        intro j hj w hw
        cases j with
        | zero =>
          simp only [List.getElem?_cons_zero] at hw
          rw [← Option.some.inj hw]
          exact hsa
        | succ k =>
          simp only [List.getElem?_cons_succ] at hw
          exact hmin k (by omega) w hw
      · rintro ⟨i, hget, hsv, hmin⟩
        cases i with
        | zero =>
          simp only [List.getElem?_cons_zero] at hget
          rw [← Option.some.inj hget] at hsv
          rw [hsv] at hsa
          exact Bool.noConfusion hsa
        | succ k =>
          simp only [List.getElem?_cons_succ] at hget
          refine ⟨k, hget, hsv, ?_⟩
          intro j hj w hw
          exact hmin (j + 1) (by omega) w (by simpa using hw)

/-- Helper: the version-search loop fails exactly when no listed version
satisfies the predicate. -/
theorem lvfrFind_none_iff (sat : String → Bool) (l : List String) :
    lvfrFind sat l = none ↔ ∀ v ∈ l, sat v = false := by
  induction l with
  | nil => simp [lvfrFind]
  | cons a tl ih =>
    cases hsa : sat a with
    | true => simp [lvfrFind, hsa]
    | false => simp [lvfrFind, hsa, ih]

/-- C5.  For a non-empty requirement list, `latest_version_for_requirements`
returns the first version, in the index's own (descending) order, contained
in every requirement; when published versions exist but none satisfies all
requirements it fails with the error listing (at most) the top 10 published
versions; and when the package has no published versions it fails with the
distinct "not published" error. -/
theorem c5_latest_version_search (p : BumperParams) (r0 : Req) (rest : List Req) :
    (∀ v, latest_version_for_requirements p (r0 :: rest) = .ok v ↔
      ∃ i : Nat, (p.all_package_versions r0.project_name)[i]? = some v ∧
        (r0 :: rest).all (fun r => p.contains v r) = true ∧
        ∀ j : Nat, j < i → ∀ w, (p.all_package_versions r0.project_name)[j]? = some w →
          (r0 :: rest).all (fun r => p.contains w r) = false) ∧
    ((∀ v ∈ p.all_package_versions r0.project_name,
        (r0 :: rest).all (fun r => p.contains v r) = false) →
      p.all_package_versions r0.project_name ≠ [] →
      latest_version_for_requirements p (r0 :: rest)
        = .error (.unsatisfiable ((r0 :: rest).map reqStr)
            ((p.all_package_versions r0.project_name).take 10))) ∧
    (p.all_package_versions r0.project_name = [] →
      latest_version_for_requirements p (r0 :: rest) = .error (.notPublished r0.project_name)) := by
  refine ⟨?_, ?_, ?_⟩
  · intro v
    unfold latest_version_for_requirements
    cases hf : lvfrFind (fun v => (r0 :: rest).all (fun r => p.contains v r))
        (p.all_package_versions r0.project_name) with
    | some w =>
      simp only [hf]
      rw [lvfrFind_some_iff] at hf
      constructor
      · intro h
        obtain rfl : w = v := Except.ok.inj h
        exact hf
      · rintro ⟨i, hget, hsv, hmin⟩
        obtain ⟨i', hget', hsv', hmin'⟩ := hf
        rcases Nat.lt_trichotomy i i' with hlt | rfl | hgt
        · rw [hmin' i hlt v hget] at hsv
          exact Bool.noConfusion hsv
        · rw [hget] at hget'
          exact congrArg Except.ok (Option.some.inj hget').symm
        · rw [hmin i' hgt w hget'] at hsv'
          exact Bool.noConfusion hsv'
    | none =>
      simp only [hf]
      rw [lvfrFind_none_iff] at hf
      constructor
      · intro h
        split at h <;> exact Except.noConfusion h
      · rintro ⟨i, hget, hsv, _⟩
        have hmem : v ∈ p.all_package_versions r0.project_name := by
          have := List.getElem?_eq_some_iff.mp hget
          obtain ⟨hlen, hv⟩ := this
          exact hv ▸ List.getElem_mem hlen
        rw [hf v hmem] at hsv
        exact Bool.noConfusion hsv
  · intro hall hne
    unfold latest_version_for_requirements
    have hf : lvfrFind (fun v => (r0 :: rest).all (fun r => p.contains v r))
        (p.all_package_versions r0.project_name) = none := (lvfrFind_none_iff _ _).mpr hall
    simp only [hf]
    rw [if_neg (by simpa [List.isEmpty_iff] using hne)]
  · intro hempty
    unfold latest_version_for_requirements
    have hf : lvfrFind (fun v => (r0 :: rest).all (fun r => p.contains v r))
        (p.all_package_versions r0.project_name) = none := by
      rw [hempty]; rfl
    simp only [hf]
    rw [if_pos (by simp [hempty])]

/-- A concrete bumper-parameter bundle used by witnesses. -/
def paramsT : BumperParams where
  should_pin := false
  detail := false
  all_package_versions := fun _ => ["2.0", "1.0"]
  latest_package_version := fun _ => some "2.0"
  contains := fun _ _ => true
  vlt := fun a b => a == "1.0" && b == "2.0"
  pkg_changes := fun _ _ _ => []
  requirements_for_changes := fun _ => []

/-- C5 witness: with no published versions the distinct "not published"
error is raised for a concrete requirement. -/
theorem c5_latest_version_search_witness :
    latest_version_for_requirements
        { paramsT with all_package_versions := fun _ => [] } (⟨"foo", []⟩ :: ([] : List Req))
      = .error (.notPublished "foo") :=
  (c5_latest_version_search { paramsT with all_package_versions := fun _ => [] }
    ⟨"foo", []⟩ []).2.2 rfl

/-- C6.  On a non-pin target, `_bump` with more than one bump requirement
(when the call proceeds at all: an existing requirement is present or some
bump requirement is required) raises the conflict error naming all of the
conflicting bump requirements. -/
theorem c6_conflict_names_all (p : BumperParams) (existing_req : Option Req)
    (b0 b1 : BReq) (rest : List BReq) (hpin : p.should_pin = false)
    (hgo : (existing_req.isSome || (b0 :: b1 :: rest).any (·.required)) = true) :
    underscoreBump p existing_req (b0 :: b1 :: rest)
      = .error (.conflict (bumpName existing_req (b0 :: b1 :: rest))
          ((b0 :: b1 :: rest).map breqStr)) := by
  have hguard : (existing_req.isSome
      || (!(b0 :: b1 :: rest).isEmpty && (b0 :: b1 :: rest).any (·.required))) = true := by
    simpa using hgo
  unfold underscoreBump
  rw [if_pos hguard]
  have hstage : bumpReqsStage p existing_req (b0 :: b1 :: rest)
      = .error (.conflict (bumpName existing_req (b0 :: b1 :: rest))
          ((b0 :: b1 :: rest).map breqStr)) := by
    simp [bumpReqsStage, hpin]
  rw [hstage]

/-- C6 witness: a concrete ambiguous call fails with the conflict error
listing both requirements. -/
theorem c6_conflict_names_all_witness :
    underscoreBump paramsT (some ⟨"foo", [("==", "1.0")]⟩)
        [⟨⟨"foo", [("==", "3.0")]⟩, false, none⟩, ⟨⟨"foo", [(">=", "2.0")]⟩, false, none⟩]
      = .error (.conflict
          (bumpName (some ⟨"foo", [("==", "1.0")]⟩)
            [⟨⟨"foo", [("==", "3.0")]⟩, false, none⟩, ⟨⟨"foo", [(">=", "2.0")]⟩, false, none⟩])
          ([⟨⟨"foo", [("==", "3.0")]⟩, false, none⟩,
            ⟨⟨"foo", [(">=", "2.0")]⟩, false, none⟩].map breqStr)) :=
  c6_conflict_names_all paramsT (some ⟨"foo", [("==", "1.0")]⟩)
    ⟨⟨"foo", [("==", "3.0")]⟩, false, none⟩ ⟨⟨"foo", [(">=", "2.0")]⟩, false, none⟩ []
    rfl rfl

/-- C7.  `_bump` never returns a no-op change: whenever it returns a bump,
that bump's string form differs from the existing requirement's string form
(`str(None)` for an absent requirement). -/
theorem c7_no_noop (p : BumperParams) (existing_req : Option Req) (bump_reqs : List BReq)
    (b : Bmp) (h : underscoreBump p existing_req bump_reqs = .ok (some b)) :
    bumpStr b ≠ optReqStr existing_req := by
  unfold underscoreBump at h
  split at h
  · cases hs1 : bumpReqsStage p existing_req bump_reqs with
    | error e => rw [hs1] at h; exact Except.noConfusion h
    | ok s1 =>
      rw [hs1] at h
      dsimp only at h
      cases hs2 : pinLatestStage p existing_req s1 with
      | error e => rw [hs2] at h; exact Except.noConfusion h
      | ok s2 =>
        rw [hs2] at h
        dsimp only at h
        split at h
        · next hcond =>
          have hd : detailStage p s2 = some b := Except.ok.inj h
          rw [hd] at hcond
          simpa [bumpStrOpt] using hcond
        · exact Option.noConfusion (Except.ok.inj h)
  · exact Option.noConfusion (Except.ok.inj h)

/-- C7 witness: a concrete `_bump` that returns a bump, whose string indeed
differs from the existing requirement's. -/
theorem c7_no_noop_witness :
    bumpStr ⟨"foo", some ["==", "2.0"], [], []⟩ ≠ optReqStr (some ⟨"foo", [("==", "1.0")]⟩) :=
  c7_no_noop paramsT (some ⟨"foo", [("==", "1.0")]⟩) []
    ⟨"foo", some ["==", "2.0"], [], []⟩ rfl

/-- Helper: looking a key up after an association-list store. -/
theorem lookupD_insertD {α : Type} (d : List (String × α)) (k k' : String) (v : α) :
    lookupD (insertD d k v) k' = if k' = k then some v else lookupD d k' := by
  induction d with
  | nil =>
    by_cases h : k' = k <;> simp_all [insertD, lookupD, eq_comm]
  | cons p rest ih =>
    obtain ⟨k0, v0⟩ := p
    by_cases h0 : k0 = k <;> by_cases h1 : k' = k <;> by_cases h2 : k0 = k' <;>
      simp_all [insertD, lookupD, eq_comm]

/-- Helper: a successful association-list lookup is a membership. -/
theorem lookupD_mem {α : Type} (d : List (String × α)) (k : String) (v : α)
    (h : lookupD d k = some v) : (k, v) ∈ d := by
  induction d with
  | nil => exact Option.noConfusion h
  | cons p rest ih =>
    obtain ⟨k0, v0⟩ := p
    by_cases hk : k0 = k
    · subst hk
      simp only [lookupD, if_pos rfl] at h
      exact (Option.some.inj h) ▸ List.mem_cons_self _ _
    · simp only [lookupD, if_neg hk] at h
      exact List.mem_cons_of_mem _ (ih h)

/-- Helper: the `check` flip pass only changes `required` flags: the
`required_by` column is untouched. -/
theorem checkFlip_rb (contains : String → Req → Bool) (version req_str : Option String)
    (l : List BReq) :
    ((checkFlip contains version req_str l).1).map (·.required_by)
      = l.map (·.required_by) := by
  induction l with
  | nil => rfl
  | cons e rest ih =>
    unfold checkFlip
    split
    · rfl
    · simpa using ih

/-- Helper: `check` preserves the `required_by` column of every name's
entry list. -/
theorem mgrCheck_lookup_rb (contains : String → Req → Bool) (m : Mgr) (ctx : CheckCtx)
    (ver : Option String) (k : String) :
    ((lookupD ((mgrCheck contains m ctx ver).1).entries k).getD []).map (·.required_by)
      = ((lookupD m.entries k).getD []).map (·.required_by) := by
  cases hl : lookupD m.entries (ctxResolve ctx ver).1 with
  | none =>
    unfold mgrCheck
    dsimp only
    rw [hl]
  | some l =>
    unfold mgrCheck
    dsimp only
    rw [hl]
    dsimp only
    rw [lookupD_insertD]
    by_cases hk : k = (ctxResolve ctx ver).1
    · rw [if_pos hk, hk, hl]
      exact checkFlip_rb contains _ _ l
    · rw [if_neg hk]

/-- Helper: `check` preserves presence of a name's entry list. -/
theorem mgrCheck_lookup_isSome (contains : String → Req → Bool) (m : Mgr) (ctx : CheckCtx)
    (ver : Option String) (k : String) :
    (lookupD ((mgrCheck contains m ctx ver).1).entries k).isSome
      = (lookupD m.entries k).isSome := by
  cases hl : lookupD m.entries (ctxResolve ctx ver).1 with
  | none =>
    unfold mgrCheck
    dsimp only
    rw [hl]
  | some l =>
    unfold mgrCheck
    dsimp only
    rw [hl]
    dsimp only
    rw [lookupD_insertD]
    by_cases hk : k = (ctxResolve ctx ver).1
    · rw [if_pos hk, hk, hl]
      rfl
    · rw [if_neg hk]

/-- Helper: `check` preserves emptiness of the manager. -/
theorem mgrCheck_isEmpty (contains : String → Req → Bool) (m : Mgr) (ctx : CheckCtx)
    (ver : Option String) :
    mgrIsEmpty ((mgrCheck contains m ctx ver).1) = mgrIsEmpty m := by
  cases hl : lookupD m.entries (ctxResolve ctx ver).1 with
  | none =>
    unfold mgrCheck
    dsimp only
    rw [hl]
    rfl
  | some l =>
    unfold mgrCheck
    dsimp only
    rw [hl]
    dsimp only [mgrIsEmpty]
    cases hm : m.entries with
    | nil => rw [hm] at hl; exact Option.noConfusion hl
    | cons p rest =>
      obtain ⟨k0, v0⟩ := p
      unfold insertD
      split <;> rfl

/-- C8.  In the existing-requirement pass, when `_bump` raises for a
processed requirement (one the pass does not skip: the manager is empty or
manages its name), the error is re-raised exactly when the requirement has
no bump requirements at all or all of its bump requirements are
user-originated (`required_by is None`); otherwise the error is logged and
the pass continues with the remaining requirements (under the manager
invariant that managed names have non-empty entry lists). -/
theorem c8_error_policy {ε : Type} (contains : String → Req → Bool)
    (bumpFn : Option Req → List BReq → Except ε (Option Bmp))
    (mgr : Mgr) (bumps : List (String × Bmp)) (r : Req) (rest : List Req) (e : ε)
    (hinv : ∀ q ∈ mgr.entries, q.2 ≠ ([] : List BReq))
    (hproc : mgrIsEmpty mgr = true ∨ (lookupD mgr.entries r.project_name).isSome = true)
    (herr : bumpFn (some r)
        ((lookupD ((mgrCheck contains mgr (CheckCtx.preq r) none).1).entries
          r.project_name).getD [])
      = .error e) :
    ((lookupD mgr.entries r.project_name = none ∨
        ∀ b ∈ (lookupD mgr.entries r.project_name).getD [], b.required_by = none) →
      bumpFirstLoop contains bumpFn mgr bumps (r :: rest) = .error e) ∧
    (¬ (lookupD mgr.entries r.project_name = none ∨
        ∀ b ∈ (lookupD mgr.entries r.project_name).getD [], b.required_by = none) →
      bumpFirstLoop contains bumpFn mgr bumps (r :: rest)
        = bumpFirstLoop contains bumpFn
            ((mgrCheck contains mgr (CheckCtx.preq r) none).1) bumps rest) := by
  have hskip : (!(mgrIsEmpty mgr) && (lookupD mgr.entries r.project_name).isNone) = false := by
    rcases hproc with h | h
    · simp [h]
    · cases hx : lookupD mgr.entries r.project_name with
      | none => rw [hx] at h; exact Bool.noConfusion h
      | some l => simp [hx]
  have hstep : bumpFirstLoop contains bumpFn mgr bumps (r :: rest)
      = (if (mgrIsEmpty ((mgrCheck contains mgr (CheckCtx.preq r) none).1) ||
            (match lookupD ((mgrCheck contains mgr (CheckCtx.preq r) none).1).entries
                r.project_name with
             | some (x :: xs) => (x :: xs).all (·.required_by.isNone)
             | _ => false)) = true then Except.error e
         else bumpFirstLoop contains bumpFn
            ((mgrCheck contains mgr (CheckCtx.preq r) none).1) bumps rest) := by
    conv_lhs => rw [bumpFirstLoop]
    rw [hskip]
    simp only [Bool.false_eq_true, if_false]
    rw [herr]
  have hEquiv : (mgrIsEmpty ((mgrCheck contains mgr (CheckCtx.preq r) none).1) ||
      (match lookupD ((mgrCheck contains mgr (CheckCtx.preq r) none).1).entries
          r.project_name with
       | some (x :: xs) => (x :: xs).all (·.required_by.isNone)
       | _ => false)) = true ↔
      (lookupD mgr.entries r.project_name = none ∨
        ∀ b ∈ (lookupD mgr.entries r.project_name).getD [], b.required_by = none) := by
    cases hl : lookupD mgr.entries r.project_name with
    | none =>
      have hempty : mgrIsEmpty mgr = true := by
        rcases hproc with h | h
        · exact h
        · rw [hl] at h; exact Bool.noConfusion h
      rw [mgrCheck_isEmpty, hempty]
      simp
    | some l =>
      have hlne : l ≠ [] := hinv (r.project_name, l) (lookupD_mem _ _ _ hl)
      have hempty : mgrIsEmpty mgr = false := by
        unfold mgrIsEmpty
        cases hmm : mgr.entries with
        | nil => rw [hmm] at hl; exact Option.noConfusion hl
        | cons p ps => rfl
      have hsome : (lookupD ((mgrCheck contains mgr (CheckCtx.preq r) none).1).entries
          r.project_name).isSome = true := by
        rw [mgrCheck_lookup_isSome, hl]; rfl
      obtain ⟨l', hl'⟩ := Option.isSome_iff_exists.mp hsome
      have hrb : l'.map (·.required_by) = l.map (·.required_by) := by
        have := mgrCheck_lookup_rb contains mgr (CheckCtx.preq r) none r.project_name
        rw [hl', hl] at this
        exact this
      have hl'ne : l' ≠ [] := by
        intro hn
        rw [hn] at hrb
        exact hlne (List.map_eq_nil_iff.mp hrb.symm)
      rw [mgrCheck_isEmpty, hempty, hl']
      obtain ⟨x, xs, rfl⟩ := List.exists_cons_of_ne_nil hl'ne
      have key : ∀ t : List BReq,
          t.all (·.required_by.isNone) = (t.map (·.required_by)).all (·.isNone) := by
        intro t
        induction t with
        | nil => rfl
        | cons a b ih => simp [ih]
      have hall : (x :: xs).all (·.required_by.isNone) = l.all (·.required_by.isNone) := by
        rw [key, key, hrb]
      simp only [Bool.false_or, hall]
      simp [List.all_eq_true, Option.isNone_iff_eq_none]
  constructor
  · intro hCA
    rw [hstep, if_pos (hEquiv.mpr hCA)]
  · intro hCA
    rw [hstep, if_neg (fun hc => hCA (hEquiv.mp hc))]

/-- C8 witness: with an empty manager (no bump requirements at all), a
failing `_bump` on a concrete requirement is re-raised by the pass. -/
theorem c8_error_policy_witness :
    bumpFirstLoop (fun _ _ => true) (fun _ _ => Except.error "boom") mgrEmpty []
        [⟨"foo", [("==", "1.0")]⟩] = Except.error "boom" :=
  (c8_error_policy (fun _ _ => true) (fun _ _ => Except.error "boom") mgrEmpty []
      ⟨"foo", [("==", "1.0")]⟩ [] "boom" (by simp [mgrEmpty]) (Or.inl rfl) rfl).1
    (Or.inl rfl)

/-- The rollback invariant: whenever a bumper holds a captured snapshot, it
is exactly the target's content in the file system `fs`. -/
def OrigOK (fs : FS) (b : BumperSt) : Prop :=
  ∀ c, b.orig = some c → c = (fsRead fs b.target).getD ""

/-- Helper: storing back a value that is already bound to the key leaves an
association list unchanged. -/
theorem insertD_self {α : Type} (d : List (String × α)) (k : String) (v : α)
    (h : lookupD d k = some v) : insertD d k v = d := by
  induction d with
  | nil => exact Option.noConfusion h
  | cons p rest ih =>
    obtain ⟨k0, v0⟩ := p
    by_cases hk : k0 = k
    · subst hk
      simp only [lookupD, if_pos rfl] at h
      simp [insertD, Option.some.inj h]
    · simp only [lookupD, if_neg hk] at h
      simp [insertD, hk, ih h]

/-- Helper: reversing a bumper whose snapshot matches the file system is a
no-op on the file system. -/
theorem bumperReverse_id (fs : FS) (b : BumperSt) (h : OrigOK fs b) :
    bumperReverse b fs = fs := by
  unfold bumperReverse
  cases ho : b.orig with
  | none => simp [truthyS, ho]
  | some c =>
    cases hc : c.isEmpty with
    | true => simp [truthyS, ho, hc]
    | false =>
      simp only [truthyS, ho, hc, Bool.not_false, if_pos, Option.getD_some]
      have hcc := h c ho
      cases hr : fsRead fs b.target with
      | none =>
        rw [hr] at hcc
        simp only [Option.getD_none] at hcc
        rw [hcc] at hc
        exact Bool.noConfusion hc
      | some d =>
        rw [hr] at hcc
        simp only [Option.getD_some] at hcc
        subst hcc
        exact insertD_self fs b.target c hr

/-- Helper: the rollback fold leaves the file system unchanged when every
bumper's snapshot matches it. -/
theorem foldl_reverse_id (fs : FS) (l : List BumperSt) (h : ∀ b ∈ l, OrigOK fs b) :
    l.foldl (fun f b => bumperReverse b f) fs = fs := by
  induction l with
  | nil => rfl
  | cons b rest ih =>
    have hb : bumperReverse b fs = fs := bumperReverse_id fs b (h b (List.mem_cons_self b rest))
    simp only [List.foldl_cons, hb]
    exact ih (fun x hx => h x (List.mem_cons_of_mem b hx))

/-- Helper: capturing the snapshot from `fs` preserves the invariant. -/
theorem captureOrig_ok (fs : FS) (b : BumperSt) (h : OrigOK fs b) (c : String)
    (hc : captureOrig fs b = some c) : c = (fsRead fs b.target).getD "" := by
  unfold captureOrig at hc
  split at hc
  · exact h c hc
  · exact (Option.some.inj hc).symm

/-- Helper: one bumper call preserves the invariant (also when raising). -/
theorem bumperRound_ok (fs : FS) (tbr : List (String × BReq)) (b : BumperSt)
    (h : OrigOK fs b) : OrigOK fs (bumperRound fs tbr b).1 := by
  unfold bumperRound
  dsimp only
  split <;> intro c hc <;> dsimp only at hc
  all_goals {
    split at hc
    · exact captureOrig_ok fs b h c hc
    · exact h c hc
  }

/-- The driver state carried by a loop result. -/
def loopResSt : LoopRes → DrvSt
  | .err _ st => st
  | .done st => st

/-- Helper: a round over any bumper indices preserves the invariant. -/
theorem roundLoop_ok (fs : FS) (tbr : List (String × BReq)) :
    ∀ (idxs : List Nat) (st : DrvSt) (newT : List (String × BReq)),
    (∀ b ∈ st.bumpers, OrigOK fs b) →
    ∀ b ∈ (roundLoop fs tbr st newT idxs).1.bumpers, OrigOK fs b := by
  intro idxs
  induction idxs with
  | nil => intro st newT h; simpa [roundLoop] using h
  | cons i rest ih =>
    intro st newT h
    unfold roundLoop
    dsimp only
    split
    · exact h
    · next b hg =>
      have hb : b ∈ st.bumpers := List.get?_mem hg
      have hpr := bumperRound_ok fs tbr b (h b hb)
      have h1 : ∀ x ∈ st.bumpers.set i (bumperRound fs tbr b).1, OrigOK fs x := by
        intro x hx
        rcases List.mem_or_eq_of_mem_set hx with hx' | rfl
        · exact h x hx'
        · exact hpr
      split
      · exact h1
      · exact ih _ _ h1

/-- Helper: instantiation preserves the invariant (fresh bumpers have no
snapshot). -/
theorem instantiateBumpers_ok (fs : FS) (models : List BumperModel) (target : String)
    (tbIdx : List Nat) (st : DrvSt) (h : ∀ b ∈ st.bumpers, OrigOK fs b) :
    ∀ b ∈ (instantiateBumpers models target tbIdx st).2.bumpers, OrigOK fs b := by
  unfold instantiateBumpers
  split
  · intro x hx
    rcases List.mem_append.mp hx with hx' | hx'
    · exact h x hx'
    · obtain ⟨mm, _, rfl⟩ := List.mem_map.mp hx'
      intro c hc
      exact Option.noConfusion hc
  · exact h

/-- Helper: the per-target loop preserves the invariant into its result. -/
theorem targetLoop_ok (fs : FS) (models : List BumperModel) (target : String) :
    ∀ (fuel : Nat) (tbIdx : List Nat) (tbr : List (String × BReq)) (st : DrvSt)
      (res : LoopRes),
    (∀ b ∈ st.bumpers, OrigOK fs b) →
    targetLoop fs models target tbIdx tbr st fuel = some res →
    ∀ b ∈ (loopResSt res).bumpers, OrigOK fs b := by
  intro fuel
  induction fuel with
  | zero => intro tbIdx tbr st res _ hres; exact Option.noConfusion hres
  | succ n ih =>
    intro tbIdx tbr st res h hres
    unfold targetLoop at hres
    dsimp only at hres
    have hinst := instantiateBumpers_ok fs models target tbIdx st h
    split at hres
    · exact ih _ _ _ _ hinst hres
    · have hround := roundLoop_ok fs tbr (instantiateBumpers models target tbIdx st).1
        (instantiateBumpers models target tbIdx st).2 [] hinst
      split at hres
      · obtain rfl := Option.some.inj hres
        exact hround
      · split at hres
        · obtain rfl := Option.some.inj hres
          exact hround
        · refine ih _ _ _ res ?_ hres
          exact hround

/-- Helper: the all-targets drive preserves the invariant into its result. -/
theorem targetsLoop_ok (fs : FS) (models : List BumperModel) (fuel : Nat) :
    ∀ (targets : List String) (st : DrvSt) (res : LoopRes),
    (∀ b ∈ st.bumpers, OrigOK fs b) →
    targetsLoop fs models fuel targets st = some res →
    ∀ b ∈ (loopResSt res).bumpers, OrigOK fs b := by
  intro targets
  induction targets with
  | nil =>
    intro st res h hres
    obtain rfl := Option.some.inj hres
    exact h
  | cons t rest ih =>
    intro st res h hres
    unfold targetsLoop at hres
    cases ht : targetLoop fs models t [] st.breqs st fuel with
    | none => rw [ht] at hres; exact Option.noConfusion hres
    | some r =>
      rw [ht] at hres
      cases r with
      | err e st1 =>
        obtain rfl := Option.some.inj hres
        exact targetLoop_ok fs models t fuel [] st.breqs st _ h ht
      | done st1 =>
        exact ih st1 res (targetLoop_ok fs models t fuel [] st.breqs st _ h ht) hres

/-- Helper: under the invariant, the except handler's rollback leaves the
file system untouched. -/
theorem driverHandler_eq (test_drive : Bool) (fs : FS) (st : DrvSt) (e : DrvErr)
    (h : ∀ b ∈ st.bumpers, OrigOK fs b) :
    driverHandler test_drive fs st e = (.error e, fs, st.bumpers) := by
  unfold driverHandler
  split
  · rw [foldl_reverse_id fs st.bumpers h]
  · rfl

/-- C1.  All-or-nothing rollback: whenever a driver run fails (with any
error, after any number of bumps, dry run or not), the file system it leaves
behind is byte-for-byte the file system it started from — every target file
is unchanged — and every bumper's captured snapshot equals its target's
original content, so the handler's `reverse` writes restore exactly that
content. -/
theorem c1_rollback_all_or_nothing (models : List BumperModel)
    (full_throttle test_drive : Bool) (fs : FS) (targets : List String)
    (filterReqs : List Req) (required : Bool) (fuel : Nat) (e : DrvErr) (fs' : FS)
    (bumpers : List BumperSt)
    (h : driverRun models full_throttle test_drive fs targets filterReqs required fuel
        = some (.error e, fs', bumpers)) :
    fs' = fs ∧ ∀ b ∈ bumpers, ∀ c, b.orig = some c → c = (fsRead fs b.target).getD "" := by
  unfold driverRun at h
  dsimp only at h
  split at h
  · simp only [Option.some.injEq, Prod.mk.injEq] at h
    refine ⟨h.2.1.symm, ?_⟩
    intro b hb
    rw [← h.2.2] at hb
    exact absurd hb (List.not_mem_nil b)
  · split at h
    · exact Option.noConfusion h
    · next e1 st1 heq =>
      have hinv := targetsLoop_ok fs models fuel _ _ _
        (fun b hb => absurd hb (List.not_mem_nil b)) heq
      rw [driverHandler_eq test_drive fs st1 _ hinv] at h
      simp only [Option.some.injEq, Prod.mk.injEq] at h
      refine ⟨h.2.1.symm, ?_⟩
      intro b hb
      rw [← h.2.2] at hb
      exact hinv b hb
    · next st1 heq =>
      have hinv := targetsLoop_ok fs models fuel _ _ _
        (fun b hb => absurd hb (List.not_mem_nil b)) heq
      split at h
      · rw [driverHandler_eq test_drive fs st1 _ hinv] at h
        simp only [Option.some.injEq, Prod.mk.injEq] at h
        refine ⟨h.2.1.symm, ?_⟩
        intro b hb
        rw [← h.2.2] at hb
        exact hinv b hb
      · split at h
        · next e2 heq2 =>
          rw [driverHandler_eq test_drive fs st1 _ hinv] at h
          simp only [Option.some.injEq, Prod.mk.injEq] at h
          refine ⟨h.2.1.symm, ?_⟩
          intro b hb
          rw [← h.2.2] at hb
          exact hinv b hb
        · split at h
          · rw [driverHandler_eq test_drive fs st1 _ hinv] at h
            simp only [Option.some.injEq, Prod.mk.injEq] at h
            refine ⟨h.2.1.symm, ?_⟩
            intro b hb
            rw [← h.2.2] at hb
            exact hinv b hb
          · simp only [Option.some.injEq, Prod.mk.injEq] at h
            exact absurd h.1 (by simp)

/-- A bumper model that reads its target and returns one bump with no
discovered requirements. -/
def modelW : BumperModel :=
  ⟨fun _ => true, fun _ _ _ => ⟨true, .ok (false, [⟨"x", none, [], []⟩])⟩, fun _ => ""⟩

/-- C1 witness: a concrete run that bumps once and then fails the
required-requirements validation leaves the file system unchanged, with the
bumper's snapshot equal to the target's original content. -/
theorem c1_rollback_all_or_nothing_witness :
    ([("t", "abc")] : FS) = [("t", "abc")] ∧
    ∀ b ∈ [(⟨modelW, "t", some "abc", [⟨"x", none, [], []⟩], 1⟩ : BumperSt)],
      ∀ c, b.orig = some c → c = (fsRead [("t", "abc")] b.target).getD "" :=
  c1_rollback_all_or_nothing [modelW] false false [("t", "abc")] ["t"] [⟨"zzz", []⟩]
    true 3 (.requiredNotMet "zzz") [("t", "abc")]
    [⟨modelW, "t", some "abc", [⟨"x", none, [], []⟩], 1⟩] rfl

/-- Helper: an association-list store never produces the empty list. -/
theorem insertD_ne_nil {α : Type} (d : List (String × α)) (k : String) (v : α) :
    insertD d k v ≠ [] := by
  cases d with
  | nil => simp [insertD]
  | cons p rest =>
    obtain ⟨k0, v0⟩ := p
    unfold insertD
    split <;> simp

/-- Helper: folding discovered requirements into a round's dict yields a
non-empty dict whenever there are requirements (or it was non-empty). -/
theorem procNewReq_foldl_ne_nil :
    ∀ (l : List BReq) (acc : List (String × BReq) × List (String × BReq)),
    l ≠ [] ∨ acc.2 ≠ [] →
    (l.foldl (fun acc nr => procNewReq acc.1 acc.2 nr) acc).2 ≠ [] := by
  intro l
  induction l with
  | nil =>
    intro acc h
    rcases h with h | h
    · exact absurd rfl h
    · exact h
  | cons nr rest ih =>
    intro acc _
    simp only [List.foldl_cons]
    apply ih
    right
    exact insertD_ne_nil _ _ _

/-- Helper: with a single bumper whose every call succeeds and emits at
least one discovered requirement, each loop round ends with a non-empty
new-requirement dict and loops again; the loop therefore exhausts any fuel. -/
theorem targetLoop_emits_aux (fs : FS) (m : BumperModel) (target : String)
    (hemits : ∀ t k d, ∃ found bl, (m.behav t k d).result = .ok (found, bl) ∧
        (bl.map (·.requirements)).flatten ≠ []) :
    ∀ (fuel : Nat) (i : Nat) (st : DrvSt) (tbr : List (String × BReq)) (b : BumperSt),
      st.bumpers.get? i = some b → b.model = m →
      targetLoop fs [m] target [i] tbr st fuel = none := by
  intro fuel
  induction fuel with
  | zero => intro i st tbr b _ _; rfl
  | succ n ih =>
    intro i st tbr b hget hbm
    obtain ⟨found, bl, hres, hne⟩ := hemits b.target b.calls tbr
    have hbr2 : (bumperRound fs tbr b).2 = .ok (found, bl) := by
      unfold bumperRound
      rw [hbm]
      dsimp only
      rw [hres]
    have hbr1 : (bumperRound fs tbr b).1
        = { b with orig := if (m.behav b.target b.calls tbr).reads then captureOrig fs b
                     else b.orig
                   calls := b.calls + 1
                   bumps := bl.foldl insertBump b.bumps } := by
      unfold bumperRound
      rw [hbm]
      dsimp only
      rw [hres]
    have hlt : i < st.bumpers.length := by
      rcases List.get?_eq_some.mp hget with ⟨hl, _⟩
      exact hl
    have hrl : roundLoop fs tbr st [] [i]
        = (⟨st.bumpers.set i (bumperRound fs tbr b).1,
            st.bumps ++ bl,
            ((bl.map (·.requirements)).flatten.foldl
              (fun acc nr => procNewReq acc.1 acc.2 nr) (st.breqs, [])).1,
            st.filter_matched || found || !bl.isEmpty⟩,
           ((bl.map (·.requirements)).flatten.foldl
              (fun acc nr => procNewReq acc.1 acc.2 nr) (st.breqs, [])).2,
           none) := by
      unfold roundLoop
      rw [hget]
      dsimp only
      rw [hbr2]
      dsimp only
      rfl
    unfold targetLoop
    dsimp only
    rw [show instantiateBumpers [m] target [i] st = ([i], st) from rfl]
    dsimp only
    simp only [List.isEmpty_cons, Bool.false_eq_true, if_false]
    rw [hrl]
    dsimp only
    have hnewT : ((bl.map (·.requirements)).flatten.foldl
        (fun acc nr => procNewReq acc.1 acc.2 nr) (st.breqs, [])).2 ≠ [] :=
      procNewReq_foldl_ne_nil _ _ (Or.inl hne)
    cases hE : ((bl.map (·.requirements)).flatten.foldl
        (fun acc nr => procNewReq acc.1 acc.2 nr) (st.breqs, [])).2.isEmpty with
    | true => exact absurd (List.isEmpty_iff.mp hE) hnewT
    | false =>
      simp only [Bool.false_eq_true, if_false]
      apply ih i _ _ (bumperRound fs tbr b).1
      · rw [List.get?_eq_getElem?]
        exact List.getElem?_set_eq_of_lt _ hlt
      · rw [hbr1]
        exact hbm

/-- C2 (amended).  The per-target reconciliation loop has no iteration cap:
it exits only when a round discovers no new requirements (or raises).  With
a bumper that likes the target and emits at least one discovered requirement
on every call, the loop never exits — it exhausts any fuel, in particular
running beyond 5 iterations. -/
theorem c2_no_iteration_cap (fs : FS) (m : BumperModel) (target : String)
    (hlikes : m.likes target = true)
    (hemits : ∀ t k d, ∃ found bl, (m.behav t k d).result = .ok (found, bl) ∧
        (bl.map (·.requirements)).flatten ≠ []) :
    ∀ (fuel : Nat) (tbr : List (String × BReq)) (st : DrvSt), st.bumpers = [] →
      targetLoop fs [m] target [] tbr st fuel = none := by
  intro fuel tbr st hb
  cases fuel with
  | zero => rfl
  | succ n =>
    have hinst : instantiateBumpers [m] target [] st
        = ([0], { st with bumpers := st.bumpers ++ [⟨m, target, none, [], 0⟩] }) := by
      simp [instantiateBumpers, hlikes, hb, List.range']
    have hswap : targetLoop fs [m] target [] tbr st (n + 1)
        = targetLoop fs [m] target [0] tbr
            { st with bumpers := st.bumpers ++ [⟨m, target, none, [], 0⟩] } (n + 1) := by
      unfold targetLoop
      rw [hinst,
        show instantiateBumpers [m] target [0]
            { st with bumpers := st.bumpers ++ [⟨m, target, none, [], 0⟩] }
          = ([0], { st with bumpers := st.bumpers ++ [⟨m, target, none, [], 0⟩] }) from rfl]
    rw [hswap]
    exact targetLoop_emits_aux fs m target hemits (n + 1) 0 _ tbr
      ⟨m, target, none, [], 0⟩ (by simp [hb]) rfl

/-- A bumper model whose every call emits a bump carrying one newly
discovered requirement. -/
def modelC : BumperModel :=
  ⟨fun _ => true,
   fun _ _ _ => ⟨true, .ok (false, [⟨"x", none, [], [⟨⟨"y", []⟩, true, none⟩]⟩])⟩,
   fun _ => ""⟩

/-- C2 counterexample.  The claim says the per-target loop executes at most
5 iterations.  With this concrete requirement-emitting bumper the loop is
still running after 5 full rounds (5 units of fuel are exhausted without the
loop exiting), so the claimed bound is false. -/
theorem c2_loop_cap_counterexample :
    targetLoop [("t", "abc")] [modelC] "t" [] [] ⟨[], [], [], true⟩ 5 = none := rfl

/-- C2 witness: the amended no-cap theorem applied to the concrete
requirement-emitting bumper at fuel 7. -/
theorem c2_no_iteration_cap_witness :
    targetLoop [("t", "abc")] [modelC] "t" [] [] ⟨[], [], [], true⟩ 7 = none :=
  c2_no_iteration_cap [("t", "abc")] modelC "t" rfl
    (fun _ _ _ => ⟨false, [⟨"x", none, [], [⟨⟨"y", []⟩, true, none⟩]⟩], rfl, by simp⟩)
    7 [] ⟨[], [], [], true⟩ rfl

/-- Helper: membership after an association-list store. -/
theorem mem_insertD {α : Type} (d : List (String × α)) (k : String) (v : α)
    (q : String × α) (h : q ∈ insertD d k v) : q ∈ d ∨ q = (k, v) := by
  induction d with
  | nil =>
    simp only [insertD, List.mem_singleton] at h
    exact Or.inr h
  | cons p rest ih =>
    obtain ⟨k0, v0⟩ := p
    unfold insertD at h
    split at h
    · rcases List.mem_cons.mp h with h1 | h1
      · exact Or.inr h1
      · exact Or.inl (List.mem_cons_of_mem _ h1)
    · rcases List.mem_cons.mp h with h1 | h1
      · exact Or.inl (h1 ▸ List.mem_cons_self _ _)
      · rcases ih h1 with h2 | h2
        · exact Or.inl (List.mem_cons_of_mem _ h2)
        · exact Or.inr h2

/-- Helper: the `add` scan never leaves an empty list for a name. -/
theorem addToList_ne_nil (vlt : String → String → Bool) (req : BReq) (l : List BReq) :
    addToList vlt req l ≠ [] := by
  cases l with
  | nil => simp [addToList]
  | cons e rest =>
    unfold addToList
    split
    · simp
    · dsimp only
      split <;> split <;> simp

/-- Helper: `add` maintains the manager invariant that every managed name
has a non-empty entry list (the hypothesis of the C8 theorem). -/
theorem mgrAdd_entries_ne_nil (vlt : String → String → Bool) (m : Mgr) (breq : BReq)
    (required : Option Bool) (h : ∀ q ∈ m.entries, q.2 ≠ ([] : List BReq)) :
    ∀ q ∈ (mgrAdd vlt m breq required).entries, q.2 ≠ ([] : List BReq) := by
  cases required with
  | none =>
    unfold mgrAdd
    dsimp only
    cases hl : lookupD m.entries breq.req.project_name with
    | some l =>
      intro q hq
      rcases mem_insertD _ _ _ q hq with h1 | h1
      · exact h q h1
      · rw [h1]
        exact addToList_ne_nil _ _ _
    | none =>
      intro q hq
      rcases List.mem_append.mp hq with h1 | h1
      · exact h q h1
      · rw [List.mem_singleton.mp h1]
        simp
  | some bb =>
    unfold mgrAdd
    dsimp only
    cases hl : lookupD m.entries ({ breq with required := bb } : BReq).req.project_name with
    | some l =>
      intro q hq
      rcases mem_insertD _ _ _ q hq with h1 | h1
      · exact h q h1
      · rw [h1]
        exact addToList_ne_nil _ _ _
    | none =>
      intro q hq
      rcases List.mem_append.mp hq with h1 | h1
      · exact h q h1
      · rw [List.mem_singleton.mp h1]
        simp

/-- Helper: `check` maintains the manager invariant as well. -/
theorem mgrCheck_entries_ne_nil (contains : String → Req → Bool) (m : Mgr) (ctx : CheckCtx)
    (ver : Option String) (h : ∀ q ∈ m.entries, q.2 ≠ ([] : List BReq)) :
    ∀ q ∈ ((mgrCheck contains m ctx ver).1).entries, q.2 ≠ ([] : List BReq) := by
  cases hl : lookupD m.entries (ctxResolve ctx ver).1 with
  | none =>
    unfold mgrCheck
    dsimp only
    rw [hl]
    exact h
  | some l =>
    unfold mgrCheck
    dsimp only
    rw [hl]
    dsimp only
    intro q hq
    rcases mem_insertD _ _ _ q hq with h1 | h1
    · exact h q h1
    · rw [h1]
      dsimp only
      have hlen : (checkFlip contains (ctxResolve ctx ver).2.1 (ctxResolve ctx ver).2.2 l).1.length
          = l.length := by
        have hcols := checkFlip_rb contains (ctxResolve ctx ver).2.1 (ctxResolve ctx ver).2.2 l
        have h2 := congrArg List.length hcols
        simpa using h2
      intro hc
      have hl0 : l ≠ [] := h (_, l) (lookupD_mem _ _ _ hl)
      rw [hc] at hlen
      simp only [List.length_nil] at hlen
      exact hl0 (List.eq_nil_of_length_eq_zero hlen.symm)
